import Mathlib

/-!
Verification development for the pyspread selection-addressed,
undo-integrated cell-mutation model.

The visible Python sources embedded here are:
  - src/src/commands.py   (CommandSetCellCode, CommandSetRowHeight,
                           CommandSetColumnWidth, CommandSetCellFormat)
  - src/src/grid.py       (GridItemModel.setData, GridItemModel.reset,
                           Grid.on_row_resized)
  - src/src/workflows.py  (Workflows.file_new, Workflows.file_open,
                           Workflows._paste_to_selection,
                           Workflows._paste_to_current)

The Selection / CellAttributes / CodeArray classes (src/lib/selection.py,
src/model/model.py) and the Command History container (QUndoStack) are not
part of the supplied sources; where a claim depends on them they are
modelled from the specification, as indicated in the doc comments.
-/

set_option autoImplicit false

namespace Pyspread

/-- Coordinate of one cell: (row, column, table). -/
abbrev Coord := Nat × Nat × Nat

/-- Fixed enumeration of cell attribute property names (spec section 3). -/
inductive PropName where
  | bgcolor
  | textcolor
  | textfont
  | pointsize
  | fontweight
  | underline
  | justification
  | vertical_align
  | renderer
  | merge_area
  | locked
  deriving DecidableEq, Repr

/-- Attribute values stored in attribute records. -/
inductive AttrValue where
  | colorVal (r g b : Nat)
  | natVal (n : Nat)
  | strVal (s : String)
  | boolVal (b : Bool)
  | noneVal
  deriving DecidableEq, Repr

/-- Modelled from the spec: Selection (src/lib/selection.py is not included
in the supplied sources).  A selection is a union of axis-aligned
rectangular blocks, full rows, full columns, and discrete cells, matching
the five constructor arguments used at the call site in grid.py
(Selection(block_top_left, block_bottom_right, rows, columns, cells)). -/
structure Selection where
  block_tl : List (Nat × Nat)
  block_br : List (Nat × Nat)
  sel_rows : List Nat
  sel_columns : List Nat
  sel_cells : List (Nat × Nat)
  deriving DecidableEq, Repr

/-- Modelled from the spec: membership test of a Selection (spec section
4.1): true iff the coordinate lies in any block, selected row, selected
column, or in the discrete cell set. -/
def Selection.contains (s : Selection) (rc : Nat × Nat) : Bool :=
  (List.zip s.block_tl s.block_br).any
    (fun bb => bb.1.1 ≤ rc.1 && rc.1 ≤ bb.2.1 && bb.1.2 ≤ rc.2 && rc.2 ≤ bb.2.2)
  || s.sel_rows.any (fun r => r = rc.1)
  || s.sel_columns.any (fun c => c = rc.2)
  || s.sel_cells.any (fun cell => cell = rc)

/-- Modelled from the spec: bounding box of a Selection clipped to the grid
shape (spec sections 3 and 4.1): the minimal rectangle covering all blocks
and discrete cells, clipped to [0, rows) x [0, cols); none when the
selection is empty. -/
def Selection.get_grid_bbox (s : Selection) (shape : Nat × Nat × Nat) :
    Option ((Nat × Nat) × (Nat × Nat)) :=
  let pts := s.block_tl ++ s.block_br ++ s.sel_cells
  match pts with
  | [] => none
  | p :: ps =>
      let top := ps.foldl (fun a q => min a q.1) p.1
      let left := ps.foldl (fun a q => min a q.2) p.2
      let bottom := ps.foldl (fun a q => max a q.1) p.1
      let right := ps.foldl (fun a q => max a q.2) p.2
      some ((top, left), (min bottom (shape.1 - 1), min right (shape.2.1 - 1)))

/-- Attribute record of the Attribute Stack: (selection, table,
property-map), the property-map being a partial association of property
names to values (spec section 3). -/
structure AttrRecord where
  sel : Selection
  table : Nat
  props : List (PropName × AttrValue)
  deriving DecidableEq, Repr

/-- Modelled from the spec: value a single attribute record contributes for
a coordinate and property: defined only when the record's selection
contains the (row, column), its table matches, and its property-map defines
the property. -/
def matchRecord (rec : AttrRecord) (c : Coord) (p : PropName) : Option AttrValue :=
  if rec.table = c.2.2 && rec.sel.contains (c.1, c.2.1) then
    (rec.props.find? (fun q => q.1 = p)).map Prod.snd
  else
    none

/-- Modelled from the spec: per-property default values (spec section 3:
fall back to a global default per property if no record matches). -/
def defaultProp : PropName → AttrValue
  | .bgcolor => .colorVal 255 255 255
  | .textcolor => .colorVal 0 0 0
  | .textfont => .strVal "Sans"
  | .pointsize => .natVal 10
  | .fontweight => .natVal 50
  | .underline => .boolVal false
  | .justification => .strVal "justify_left"
  | .vertical_align => .strVal "align_top"
  | .renderer => .strVal "text"
  | .merge_area => .noneVal
  | .locked => .boolVal false

/-- Modelled from the spec: scan of the Attribute Stack for one property
(spec section 4.2): the last (most recently appended) matching record wins.
The stack is a list in append order, so later elements take precedence. -/
def findAttr : List AttrRecord → Coord → PropName → Option AttrValue
  | [], _, _ => none
  | r :: rest, c, p =>
      match findAttr rest c p with
      | some v => some v
      | none => matchRecord r c p

/-- Modelled from the spec: effective value of one property at one
coordinate (spec section 4.2), falling back to the per-property default. -/
def effectiveProp (stack : List AttrRecord) (c : Coord) (p : PropName) : AttrValue :=
  (findAttr stack c p).getD (defaultProp p)

/-- State touched by cell-code and cell-format commands: the Cell Store's
sparse code mapping and the Attribute Stack. -/
structure CellState where
  cells : Coord → Option String
  attrs : List AttrRecord

/-- Write of one cell's code into the Cell Store; writing none deletes the
cell (GridItemModel.setData with Qt.EditRole and raw=True assigns
code_array[key] = value, grid.py lines 925-932). -/
def writeCell (f : Coord → Option String) (k : Coord) (v : Option String) :
    Coord → Option String :=
  fun x => if x = k then v else f x

/-- Commands as captured by commands.py: CommandSetCellCode stores parallel
lists of indices, old codes and new codes (lines 35-42); CommandSetCellFormat
stores the attribute record that its redo appends (lines 147-166). -/
inductive Cmd where
  | setCode (indices : List Coord) (old_codes new_codes : List (Option String))
  | setFormat (attr : AttrRecord)
  deriving DecidableEq, Repr

/-- Iterated cell write used by CommandSetCellCode.redo (commands.py lines
55-57, zipping indices with new codes) and CommandSetCellCode.undo (lines
59-61, zipping indices with old codes). -/
def writeCellList (indices : List Coord) (codes : List (Option String))
    (f : Coord → Option String) : Coord → Option String :=
  (List.zip indices codes).foldl (fun g kv => writeCell g kv.1 kv.2) f

/-- Redo of a command: CommandSetCellCode.redo writes the new codes
(commands.py lines 55-57); CommandSetCellFormat.redo calls setData with
Qt.DecorationRole, which appends the attribute record to the Attribute
Stack (commands.py lines 160-162, grid.py lines 934-940). -/
def cmdRedo : Cmd → CellState → CellState
  | .setCode indices _ new_codes, s =>
      { s with cells := writeCellList indices new_codes s.cells }
  | .setFormat a, s => { s with attrs := s.attrs ++ [a] }

/-- Undo of a command: CommandSetCellCode.undo writes the old codes back
(commands.py lines 59-61); CommandSetCellFormat.undo pops the Attribute
Stack (commands.py lines 164-166). -/
def cmdUndo : Cmd → CellState → CellState
  | .setCode indices old_codes _, s =>
      { s with cells := writeCellList indices old_codes s.cells }
  | .setFormat a, s =>
      let _ := a
      { s with attrs := s.attrs.dropLast }

/-- User actions that construct commands: setting one cell's code or
appending one format record. -/
inductive Action where
  | setCode (index : Coord) (code : Option String)
  | setFormat (attr : AttrRecord)

/-- Construction of a command from the current state, as the command
constructors do: CommandSetCellCode.__init__ captures
old_codes = [model.code(index)] from the current model state
(commands.py lines 35-42). -/
def mkCmd : Action → CellState → Cmd
  | .setCode k v, s => .setCode [k] [s.cells k] [v]
  | .setFormat a, _ => .setFormat a

/-- Pushing a list of actions onto the history: each action constructs its
command from the current state and the history immediately runs the
command's redo (QUndoStack.push semantics, spec section 4.4).
Returns the final state and the committed commands in push order. -/
def pushAll : List Action → CellState → CellState × List Cmd
  | [], s => (s, [])
  | a :: rest, s =>
      let c := mkCmd a s
      let p := pushAll rest (cmdRedo c s)
      (p.1, c :: p.2)

/-- Undoing every command of a committed list, newest first. -/
def undoAll : List Cmd → CellState → CellState
  | [], s => s
  | c :: cs, s => cmdUndo c (undoAll cs s)

/-- Redoing every command of a committed list, oldest first. -/
def redoAll : List Cmd → CellState → CellState
  | [], s => s
  | c :: cs, s => redoAll cs (cmdRedo c s)

/-- Data of CommandSetRowHeight (commands.py lines 64-74): target row,
table, old height and new height. -/
structure RHCmd where
  row : Nat
  table : Nat
  old_height : Nat
  new_height : Nat
  deriving DecidableEq, Repr

/-- State touched by row-height commands: the live view's per-row heights
(grid.rowHeight / grid.setRowHeight), the Cell Store's per-row size map
(code_array.row_heights), the re-entrancy guard flag undo_resizing_row
(grid.py lines 124, 315), the grid's current table, and the Command History
of committed row-height commands, newest first. -/
structure RHState where
  viewHeights : Nat → Nat
  rowHeights : Nat × Nat → Option Nat
  undo_resizing_row : Bool
  table : Nat
  history : List RHCmd

mutual

/-- Grid.on_row_resized (grid.py lines 312-320): when the re-entrancy guard
undo_resizing_row is set the resize came from an undo or redo command and
nothing happens; otherwise a CommandSetRowHeight for the current table is
pushed onto the Command History.  The fuel bounds the event-delivery depth
of the feedback loop between the view resize event, the history push and
the command redo; the guard flag makes the recursion stop at depth one. -/
def on_row_resizedF : Nat → RHState → Nat → Nat → Nat → RHState
  | 0, st, _, _, _ => st
  | f + 1, st, row, old_height, new_height =>
      if st.undo_resizing_row then st
      else pushRowHeightF f st ⟨row, st.table, old_height, new_height⟩

/-- Modelled from the spec: Command History push with coalescing (spec
section 4.4; the QUndoStack container is not part of the supplied
sources): merge with the top command when the coalescing key matches, per
CommandSetRowHeight.mergeWith (commands.py lines 79-83), which merges
exactly when the rows are equal and keeps the old height while replacing
the new height; then the merged (or appended) command's redo runs. -/
def pushRowHeightF : Nat → RHState → RHCmd → RHState
  | f, st, c =>
      match st.history with
      | t :: rest =>
          if t.row = c.row then
            let merged : RHCmd := { t with new_height := c.new_height }
            rowHeightRedoF f merged { st with history := merged :: rest }
          else
            rowHeightRedoF f c { st with history := c :: t :: rest }
      | [] => rowHeightRedoF f c { st with history := [c] }

/-- CommandSetRowHeight.redo (commands.py lines 85-92): a no-op when the
view's row height already equals the new height; otherwise sets the guard
flag, resizes the view row (which fires the sectionResized event, here
delivered to on_row_resizedF), writes the new height into the Cell Store's
row_heights map, and clears the guard flag. -/
def rowHeightRedoF : Nat → RHCmd → RHState → RHState
  | f, c, st =>
      if st.viewHeights c.row = c.new_height then st
      else
        let st1 : RHState := { st with undo_resizing_row := true }
        let old := st1.viewHeights c.row
        let st2 := on_row_resizedF f
          { st1 with viewHeights :=
              fun r => if r = c.row then c.new_height else st1.viewHeights r }
          c.row old c.new_height
        { st2 with
            rowHeights :=
              fun k => if k = (c.row, c.table) then some c.new_height
                       else st2.rowHeights k,
            undo_resizing_row := false }

end

/-- Undo of CommandSetRowHeight (commands.py lines 94-101): mirror of redo
with the old height as target. -/
def rowHeightUndoF (f : Nat) (c : RHCmd) (st : RHState) : RHState :=
  if st.viewHeights c.row = c.old_height then st
  else
    let st1 : RHState := { st with undo_resizing_row := true }
    let old := st1.viewHeights c.row
    let st2 := on_row_resizedF f
      { st1 with viewHeights :=
          fun r => if r = c.row then c.old_height else st1.viewHeights r }
      c.row old c.old_height
    { st2 with
        rowHeights :=
          fun k => if k = (c.row, c.table) then some c.old_height
                   else st2.rowHeights k,
        undo_resizing_row := false }

/-- User-initiated row resize: the view's row height changes, then the
sectionResized event is delivered to Grid.on_row_resized with the previous
and the new height (grid.py lines 109, 312-320). -/
def userResizeRowF (f : Nat) (st : RHState) (row new_height : Nat) : RHState :=
  let old := st.viewHeights row
  on_row_resizedF f
    { st with viewHeights :=
        fun r => if r = row then new_height else st.viewHeights r }
    row old new_height

/-- Application state touched by GridItemModel.reset (grid.py lines
949-972): the sparse cell dictionary, the Attribute Stack, the per-row and
per-column size maps, the macros, the result cache, the grid shape, and
the Command History.  The history is a field of MainWindow
(pyspread.py line 161), reachable from the model via main_window. -/
structure AppState where
  dict_grid : List (Coord × String)
  attrs : List AttrRecord
  row_heights : List ((Nat × Nat) × Nat)
  col_widths : List ((Nat × Nat) × Nat)
  macros : String
  result_cache : List (Coord × String)
  shape : Nat × Nat × Nat
  history : List Cmd
  deriving Repr

/-- GridItemModel.reset (grid.py lines 949-972): clears the cells, the
attributes, the row heights and column widths, the macros and the result
cache.  The undo_stack.clear() call at line 967 is commented out in the
source, so the Command History is left untouched. -/
def resetModel (st : AppState) : AppState :=
  { st with
      dict_grid := []
      attrs := []
      row_heights := []
      col_widths := []
      macros := ""
      result_cache := [] }

/-- Workflows.file_new (workflows.py lines 132-153), on the path where the
shape dialog is confirmed: reset the grid model, then set the new shape. -/
def file_new (st : AppState) (shape : Nat × Nat × Nat) : AppState :=
  { resetModel st with shape := shape }

/-- Chunked load loop of Workflows.file_open (workflows.py lines 197-207):
each line of the file mutates the state through PysReader; after each line
the progress dialog is polled, and when it reports cancellation the model
is reset and the loop breaks.  cancelAt counts the lines consumed before
the dialog reports cancellation. -/
def fileOpenLoad : List (AppState → AppState) → Option Nat → AppState → AppState
  | [], _, st => st
  | line :: rest, cancelAt, st =>
      let st' := line st
      match cancelAt with
      | some 0 => resetModel st'
      | some (k + 1) => fileOpenLoad rest (some k) st'
      | none => fileOpenLoad rest none st'

/-- Modelled from the spec: bounded Command History push (spec sections 4.4
and 7; the QUndoStack container is not part of the supplied sources).  The
history holds at most limit committed commands; when pushing would exceed
the bound, the oldest committed command is silently discarded. -/
def pushBounded (limit : Nat) (hist : List Cmd) (c : Cmd) : List Cmd :=
  let h := hist ++ [c]
  if limit < h.length then h.drop (h.length - limit) else h

/-- Modelled from the spec and the claims: Cell Store membership test used
by the paste loops ((row, column, table) in code_array): the coordinate
exists in the Cell Store's grid shape. -/
def gridContains (shape : Nat × Nat × Nat) (k : Coord) : Bool :=
  k.1 < shape.1 && k.2.1 < shape.2.1 && k.2.2 < shape.2.2

/-- Inner loop of Workflows._paste_to_selection (workflows.py lines
495-506): for column, value in enumerate(cycle(line)): write the value at
(paste_row, column + left) when that cell is in the Cell Store, within the
right bound and in the selection; break when the cell is out of the grid or
past the right bound.  The fuel bounds the iteration count; cycling an
empty line yields nothing. -/
def pasteSelCols (shape : Nat × Nat × Nat) (sel : Selection)
    (table row left right : Nat) :
    Nat → Nat → List String → (Coord → Option String) → (Coord → Option String)
  | 0, _, _, st => st
  | fuel + 1, col, line, st =>
      if line.isEmpty then st
      else
        let value := line.getD (col % line.length) ""
        let paste_column := col + left
        if gridContains shape (row, paste_column, table) && paste_column ≤ right then
          let st' := if sel.contains (row, paste_column) then
              writeCell st (row, paste_column, table) (some value)
            else st
          pasteSelCols shape sel table row left right fuel (col + 1) line st'
        else st

/-- Outer loop of Workflows._paste_to_selection (workflows.py lines
490-506): for row, line in enumerate(cycle(paste_gen)): break when
paste_row exceeds the bounding box bottom or leaves the grid, else run the
inner loop on the cycled source line. -/
def pasteSelRows (shape : Nat × Nat × Nat) (sel : Selection)
    (table top left bottom right : Nat) (data : List (List String)) :
    Nat → Nat → (Coord → Option String) → (Coord → Option String)
  | 0, _, st => st
  | fuel + 1, row, st =>
      if data.isEmpty then st
      else
        let line := data.getD (row % data.length) []
        let paste_row := row + top
        if bottom < paste_row || !gridContains shape (paste_row, 0, table) then st
        else
          pasteSelRows shape sel table top left bottom right data fuel (row + 1)
            (pasteSelCols shape sel table paste_row left right (right + 1) 0 line st)

/-- Workflows._paste_to_selection (workflows.py lines 477-506): computes
the grid-clipped bounding box of the selection and fills it with the
cycled source data. -/
def paste_to_selection (shape : Nat × Nat × Nat) (sel : Selection) (table : Nat)
    (data : List (List String)) (st : Coord → Option String) :
    Coord → Option String :=
  match sel.get_grid_bbox shape with
  | none => st
  | some ((top, left), (bottom, right)) =>
      pasteSelRows shape sel table top left bottom right data (bottom + 1) 0 st

/-- Inner loop of Workflows._paste_to_current (workflows.py lines
525-533): for column, value in enumerate(line): write the value at
(paste_row, column + left) when that cell is in the Cell Store, else
break.  No selection check, no right bound, no cycling. -/
def pasteCurCols (shape : Nat × Nat × Nat) (table row left : Nat) :
    Nat → List String → (Coord → Option String) → (Coord → Option String)
  | _, [], st => st
  | col, value :: rest, st =>
      let paste_column := col + left
      if gridContains shape (row, paste_column, table) then
        pasteCurCols shape table row left (col + 1) rest
          (writeCell st (row, paste_column, table) (some value))
      else st

/-- Outer loop of Workflows._paste_to_current (workflows.py lines
520-533): for row, line in enumerate(paste_gen): break when the row leaves
the grid, else run the inner loop once per source line.  No cycling. -/
def pasteCurRows (shape : Nat × Nat × Nat) (table top left : Nat) :
    Nat → List (List String) → (Coord → Option String) → (Coord → Option String)
  | _, [], st => st
  | row, line :: rest, st =>
      let paste_row := row + top
      if gridContains shape (paste_row, 0, table) then
        pasteCurRows shape table top left (row + 1) rest
          (pasteCurCols shape table paste_row left 0 line st)
      else st

/-- Workflows._paste_to_current (workflows.py lines 508-533): pastes the
source data starting at the current cell (top, left), writing each source
row and cell at most once. -/
def paste_to_current (shape : Nat × Nat × Nat) (table top left : Nat)
    (data : List (List String)) (st : Coord → Option String) :
    Coord → Option String :=
  pasteCurRows shape table top left 0 data st

/-- Record A of the spec's concrete tie-break scenario (spec section 8,
item 6): background color red on the block (0,0)-(1,1) of table 0. -/
def recA : AttrRecord :=
  ⟨⟨[(0, 0)], [(1, 1)], [], [], []⟩, 0, [(PropName.bgcolor, AttrValue.colorVal 255 0 0)]⟩

/-- Record B of the spec's concrete tie-break scenario (spec section 8,
item 6): background color blue on the single cell (0,0) of table 0. -/
def recB : AttrRecord :=
  ⟨⟨[], [], [], [], [(0, 0)]⟩, 0, [(PropName.bgcolor, AttrValue.colorVal 0 0 255)]⟩

/-- Example committed command: one cell-code edit. -/
def cmdEx1 : Cmd := Cmd.setCode [(0, 0, 0)] [none] [some "1"]

/-- Example committed command: one format edit. -/
def cmdEx2 : Cmd := Cmd.setFormat recA

/-- Example application state with populated grid data and a nonempty
Command History. -/
def exState5 : AppState :=
  { dict_grid := [((0, 0, 0), "1")]
    attrs := [recA]
    row_heights := [((0, 0), 25)]
    col_widths := [((1, 0), 80)]
    macros := "x = 1"
    result_cache := [((0, 0, 0), "1")]
    shape := (1000, 100, 3)
    history := [cmdEx1] }

/-- Example chunk of a file load: inserts one cell. -/
def loadLineEx : AppState → AppState :=
  fun st => { st with dict_grid := ((0, 0, 0), "7") :: st.dict_grid }

/-- Example row-height state with the re-entrancy guard set. -/
def rhGuardSt : RHState := ⟨fun _ => 10, fun _ => none, true, 0, []⟩

/-- Example row-height state whose view already shows height 20 for row 0. -/
def rhViewNewSt : RHState := ⟨fun _ => 20, fun _ => none, false, 0, []⟩

/-- Example row-height state whose view already shows height 10 for row 0. -/
def rhViewOldSt : RHState := ⟨fun _ => 10, fun _ => none, false, 0, []⟩

/-- Example row-height command: resize row 0 from height 10 to height 20. -/
def rhCmdEx : RHCmd := ⟨0, 0, 10, 20⟩

/-- Example selection: the single block (1,1)-(2,2). -/
def sel10 : Selection := ⟨[(1, 1)], [(2, 2)], [], [], []⟩

/-- Example empty Cell Store code mapping. -/
def stNone : Coord → Option String := fun _ => none

/-- Each pushed command's undo exactly inverts its redo on the state it was
constructed from: CommandSetCellCode captures the old code at construction
and its undo writes it back; CommandSetCellFormat's undo pops the record
its redo appended. -/
theorem cmdUndo_mkCmd (a : Action) (s : CellState) :
    cmdUndo (mkCmd a s) (cmdRedo (mkCmd a s) s) = s := by
  cases a with
  | setCode k v =>
      cases s with
      | mk cells attrs =>
          simp only [mkCmd, cmdRedo, cmdUndo, writeCellList, List.zip,
            List.zipWith, List.foldl]
          congr 1
          funext x
          by_cases hx : x = k <;> simp [writeCell, hx]
  | setFormat a =>
      cases s with
      | mk cells attrs =>
          simp [mkCmd, cmdRedo, cmdUndo, List.dropLast_concat]

/-- Undoing every committed command of a pushed sequence, newest first,
restores the state before the sequence. -/
theorem undo_pushAll : ∀ (acts : List Action) (s : CellState),
    undoAll (pushAll acts s).2 (pushAll acts s).1 = s := by
  intro acts
  induction acts with
  | nil => intro s; simp [pushAll, undoAll]
  | cons a rest ih =>
      intro s
      simp only [pushAll, undoAll]
      rw [ih (cmdRedo (mkCmd a s) s)]
      exact cmdUndo_mkCmd a s

/-- Redoing every committed command of a pushed sequence, oldest first,
recreates the state after the sequence was pushed. -/
theorem redo_pushAll : ∀ (acts : List Action) (s : CellState),
    redoAll (pushAll acts s).2 s = (pushAll acts s).1 := by
  intro acts
  induction acts with
  | nil => intro s; simp [pushAll, redoAll]
  | cons a rest ih =>
      intro s
      simp only [pushAll, redoAll]
      exact ih (cmdRedo (mkCmd a s) s)

/-- C1: Undo/redo round-trip: for any sequence of commands pushed onto the
Command History (cell-code and cell-format commands, each capturing its
old state from the state it is constructed on), executing all apply steps,
then undoing all of them, then redoing all of them leaves the Cell Store
contents and the effective attributes of every coordinate identical to the
state immediately after the initial apply steps. -/
theorem undo_redo_round_trip (acts : List Action) (s0 : CellState) :
    (∀ k : Coord,
        (redoAll (pushAll acts s0).2
            (undoAll (pushAll acts s0).2 (pushAll acts s0).1)).cells k
          = (pushAll acts s0).1.cells k)
  ∧ ∀ (c : Coord) (p : PropName),
        effectiveProp (redoAll (pushAll acts s0).2
            (undoAll (pushAll acts s0).2 (pushAll acts s0).1)).attrs c p
          = effectiveProp (pushAll acts s0).1.attrs c p := by
  rw [undo_pushAll acts s0, redo_pushAll acts s0]
  exact ⟨fun _ => rfl, fun _ _ => rfl⟩

/-- C2: Attribute Stack pop-inverse law: the effective property map of any
coordinate before appending a record equals the one computed after the
append followed by a pop; a SetFormat command's apply appends exactly one
record and its invert pops exactly one record. -/
theorem attr_pop_inverse (s : CellState) (a : AttrRecord) (c : Coord)
    (p : PropName) :
    effectiveProp (cmdUndo (Cmd.setFormat a) (cmdRedo (Cmd.setFormat a) s)).attrs c p
      = effectiveProp s.attrs c p
  ∧ (cmdRedo (Cmd.setFormat a) s).attrs = s.attrs ++ [a]
  ∧ (cmdUndo (Cmd.setFormat a) (cmdRedo (Cmd.setFormat a) s)).attrs = s.attrs := by
  refine ⟨?_, rfl, ?_⟩ <;> simp [cmdRedo, cmdUndo, List.dropLast_concat]

/-- Appending a record that matches a coordinate and property makes that
record's value the effective scan result. -/
theorem findAttr_concat_some (stack : List AttrRecord) (r : AttrRecord)
    (c : Coord) (p : PropName) (v : AttrValue)
    (h : matchRecord r c p = some v) :
    findAttr (stack ++ [r]) c p = some v := by
  induction stack with
  | nil => simp [findAttr, h]
  | cons x rest ih => simp [findAttr, ih]

/-- Appending a record that does not match a coordinate and property leaves
the effective scan result unchanged. -/
theorem findAttr_concat_none (stack : List AttrRecord) (r : AttrRecord)
    (c : Coord) (p : PropName)
    (h : matchRecord r c p = none) :
    findAttr (stack ++ [r]) c p = findAttr stack c p := by
  induction stack with
  | nil => simp [findAttr, h]
  | cons x rest ih => simp [findAttr, ih]

/-- C4: Effective-attribute tie-break is pure recency: whenever the most
recently appended record matches the coordinate, table and property, its
value is returned regardless of every earlier record (in particular of any
record appended just before it, whatever the size or specificity of its
selection); concretely, after appending record A (background red on block
(0,0)-(1,1)) then record B (background blue on cell (0,0)), the effective
background of (0,0) is blue, after one pop it is red, and after a second
pop it is the default. -/
theorem tie_break_recency (stack : List AttrRecord) (r1 r2 : AttrRecord)
    (c : Coord) (p : PropName) (v : AttrValue)
    (h : matchRecord r2 c p = some v) :
    effectiveProp (stack ++ [r1, r2]) c p = v
  ∧ effectiveProp [recA, recB] (0, 0, 0) PropName.bgcolor = AttrValue.colorVal 0 0 255
  ∧ effectiveProp [recA, recB].dropLast (0, 0, 0) PropName.bgcolor
      = AttrValue.colorVal 255 0 0
  ∧ effectiveProp [recA, recB].dropLast.dropLast (0, 0, 0) PropName.bgcolor
      = defaultProp PropName.bgcolor := by
  refine ⟨?_, by decide, by decide, by decide⟩
  have : stack ++ [r1, r2] = (stack ++ [r1]) ++ [r2] := by simp
  rw [this, effectiveProp, findAttr_concat_some _ r2 c p v h, Option.getD_some]

/-- Witness for C4 at a concrete input: record B matches (0,0,0) for the
background color with value blue, and appending A then B onto the empty
stack makes blue the effective background of (0,0,0). -/
theorem tie_break_recency_witness :
    matchRecord recB (0, 0, 0) PropName.bgcolor
        = some (AttrValue.colorVal 0 0 255)
  ∧ effectiveProp ([] ++ [recA, recB]) (0, 0, 0) PropName.bgcolor
        = AttrValue.colorVal 0 0 255 :=
  ⟨by decide,
   (tie_break_recency [] recA recB (0, 0, 0) PropName.bgcolor
      (AttrValue.colorVal 0 0 255) (by decide)).1⟩

/-- C5 (code bug evidence): the file-new workflow completes, the grid data
is cleared, yet the Command History still holds the previously committed
command, because the undo_stack.clear() call in GridItemModel.reset
(grid.py line 967) is commented out and neither Workflows.file_new nor
Workflows.file_open clears the stack; GridItemModel.reset's own docstring
says it deletes all grid data including undo data. -/
theorem reset_keeps_history :
    (file_new exState5 (500, 50, 2)).history = exState5.history
  ∧ (resetModel exState5).history = exState5.history
  ∧ exState5.history ≠ []
  ∧ (file_new exState5 (500, 50, 2)).dict_grid = []
  ∧ (file_new exState5 (500, 50, 2)).attrs = [] := by
  refine ⟨rfl, rfl, ?_, rfl, rfl⟩
  decide

/-- C6: History capacity bound (Command History container modelled from
the spec): a history within the configured bound stays within the bound
after a push, and when the history is exactly full, pushing discards the
oldest committed command and appends the new one, with no error. -/
theorem history_capacity (limit : Nat) (hist : List Cmd) (c : Cmd)
    (h1 : 0 < limit) (h2 : hist.length ≤ limit) :
    (pushBounded limit hist c).length ≤ limit
  ∧ (hist.length = limit → pushBounded limit hist c = hist.tail ++ [c]) := by
  unfold pushBounded
  by_cases hlt : limit < (hist ++ [c]).length
  · have hlen : hist.length = limit := by
      simp only [List.length_append, List.length_singleton] at hlt
      omega
    constructor
    · simp [hlt, hlen]
    · intro _
      simp only [hlt, if_true, List.length_append, List.length_singleton, hlen]
      have hd : limit + 1 - limit = 1 := by omega
      rw [hd, List.drop_append_of_le_length (by omega), List.drop_one]
      simp
  · constructor
    · simp only [hlt, if_false]
      simp only [List.length_append, List.length_singleton] at hlt ⊢
      omega
    · intro heq
      exfalso
      simp only [List.length_append, List.length_singleton, heq] at hlt
      omega

/-- Witness for C6 at a concrete input: with capacity 1 and a full history
of one command, pushing a second command keeps the length within the bound
and replaces the oldest entry. -/
theorem history_capacity_witness :
    0 < 1 ∧ [cmdEx1].length ≤ 1
  ∧ (pushBounded 1 [cmdEx1] cmdEx2).length ≤ 1
  ∧ pushBounded 1 [cmdEx1] cmdEx2 = [cmdEx1].tail ++ [cmdEx2] :=
  ⟨by decide, by decide,
   (history_capacity 1 [cmdEx1] cmdEx2 (by decide) (by decide)).1,
   (history_capacity 1 [cmdEx1] cmdEx2 (by decide) (by decide)).2 rfl⟩

/-- C8: Cancelling an in-progress chunked file load aborts the load and
discards all partial state: when the progress dialog reports cancellation
while lines remain, the resulting state has empty cell data, an empty
Attribute Stack, and cleared row heights and column widths. -/
theorem cancel_load_resets (lines : List (AppState → AppState)) (k : Nat)
    (st0 : AppState) (hk : k < lines.length) :
    (fileOpenLoad lines (some k) st0).dict_grid = []
  ∧ (fileOpenLoad lines (some k) st0).attrs = []
  ∧ (fileOpenLoad lines (some k) st0).row_heights = []
  ∧ (fileOpenLoad lines (some k) st0).col_widths = [] := by
  induction lines generalizing k st0 with
  | nil => simp at hk
  | cons l rest ih =>
      cases k with
      | zero => refine ⟨rfl, rfl, rfl, rfl⟩
      | succ k =>
          have hk' : k < rest.length := by
            simp only [List.length_cons] at hk
            omega
          exact ih k (l st0) hk'

/-- Witness for C8 at a concrete input: cancelling after the first chunk of
a one-chunk load leaves an empty grid. -/
theorem cancel_load_resets_witness :
    0 < [loadLineEx].length
  ∧ (fileOpenLoad [loadLineEx] (some 0) exState5).dict_grid = [] :=
  ⟨by decide, (cancel_load_resets [loadLineEx] 0 exState5 (by decide)).1⟩

/-- With the re-entrancy guard set, the row-resize event handler changes
nothing (grid.py lines 315-316), at every event-delivery depth. -/
theorem on_row_resized_guarded (f : Nat) (st : RHState) (row o n : Nat)
    (h : st.undo_resizing_row = true) :
    on_row_resizedF f st row o n = st := by
  cases f with
  | zero => simp [on_row_resizedF]
  | succ f => simp [on_row_resizedF, h]

/-- After a row-height command's redo, the view shows the new height. -/
theorem rowHeightRedoF_view (f : Nat) (c : RHCmd) (st : RHState) :
    (rowHeightRedoF f c st).viewHeights c.row = c.new_height := by
  simp only [rowHeightRedoF]
  split
  · assumption
  · rw [on_row_resized_guarded f _ _ _ _ rfl]
    simp

/-- After a row-height command's undo, the view shows the old height. -/
theorem rowHeightUndoF_view (f : Nat) (c : RHCmd) (st : RHState) :
    (rowHeightUndoF f c st).viewHeights c.row = c.old_height := by
  simp only [rowHeightUndoF]
  split
  · assumption
  · rw [on_row_resized_guarded f _ _ _ _ rfl]
    simp

/-- A row-height command's redo never changes the Command History: the
guard flag is set before the view resize, so the resulting resize event is
ignored by the handler. -/
theorem rowHeightRedoF_history (f : Nat) (c : RHCmd) (st : RHState) :
    (rowHeightRedoF f c st).history = st.history := by
  simp only [rowHeightRedoF]
  split
  · rfl
  · rw [on_row_resized_guarded f _ _ _ _ rfl]

/-- A row-height command's undo never changes the Command History. -/
theorem rowHeightUndoF_history (f : Nat) (c : RHCmd) (st : RHState) :
    (rowHeightUndoF f c st).history = st.history := by
  simp only [rowHeightUndoF]
  split
  · rfl
  · rw [on_row_resized_guarded f _ _ _ _ rfl]

/-- C3: Row-height command coalescing: resizing the same row first to H1
then to H2 produces exactly one history entry, which records the pre-H1
height as its old height and H2 (never H1) as its new height; that entry's
invert restores the pre-H1 view height and its apply sets H2. -/
theorem row_height_merge (f g : Nat) (v : Nat → Nat) (m : Nat × Nat → Option Nat)
    (tbl row h1 h2 : Nat) :
    (userResizeRowF (f + 1)
        (userResizeRowF (f + 1) ⟨v, m, false, tbl, []⟩ row h1) row h2).history
      = [⟨row, tbl, v row, h2⟩]
  ∧ (rowHeightUndoF g ⟨row, tbl, v row, h2⟩
        (userResizeRowF (f + 1)
          (userResizeRowF (f + 1) ⟨v, m, false, tbl, []⟩ row h1) row h2)).viewHeights row
      = v row
  ∧ (rowHeightRedoF g ⟨row, tbl, v row, h2⟩
        (rowHeightUndoF g ⟨row, tbl, v row, h2⟩
          (userResizeRowF (f + 1)
            (userResizeRowF (f + 1) ⟨v, m, false, tbl, []⟩ row h1) row h2))).viewHeights row
      = h2 := by
  refine ⟨?_, rowHeightUndoF_view g ⟨row, tbl, v row, h2⟩ _,
    rowHeightRedoF_view g ⟨row, tbl, v row, h2⟩ _⟩
  simp [userResizeRowF, on_row_resizedF, pushRowHeightF, rowHeightRedoF]

/-- Cells outside the written range of the inner selection-paste loop are
left unchanged: the loop writes only at coordinates of its row, between its
current column and the right bound, inside the grid and inside the
selection. -/
theorem pasteSelCols_frame (shape : Nat × Nat × Nat) (sel : Selection)
    (table row left right : Nat) :
    ∀ (fuel col : Nat) (line : List String) (st : Coord → Option String) (q : Coord),
      ¬(q.2.2 = table ∧ q.1 = row ∧ col + left ≤ q.2.1 ∧ q.2.1 ≤ right
          ∧ gridContains shape q = true ∧ sel.contains (q.1, q.2.1) = true) →
      pasteSelCols shape sel table row left right fuel col line st q = st q := by
  intro fuel
  induction fuel with
  | zero =>
      intro col line st q hq
      simp [pasteSelCols]
  | succ fuel ih =>
      intro col line st q hq
      simp only [pasteSelCols]
      by_cases hline : line.isEmpty = true
      · rw [if_pos hline]
      · rw [if_neg hline]
        by_cases hg : (gridContains shape (row, col + left, table)
            && decide (col + left ≤ right)) = true
        · rw [if_pos hg]
          have hg' := hg
          simp only [Bool.and_eq_true, decide_eq_true_eq] at hg'
          obtain ⟨hg1, hg2'⟩ := hg'
          rw [ih (col + 1) line _ q ?_]
          · by_cases hs : sel.contains (row, col + left) = true
            · rw [if_pos hs]
              simp only [writeCell]
              rw [if_neg ?_]
              intro heq
              subst heq
              exact hq ⟨rfl, rfl, Nat.le_refl _, hg2', hg1, hs⟩
            · rw [if_neg hs]
          · rintro ⟨h1, h2, h3, h4, h5, h6⟩
            exact hq ⟨h1, h2, by omega, h4, h5, h6⟩
        · rw [if_neg hg]

/-- Cells outside the written range of the outer selection-paste loop are
left unchanged: the loop writes only at coordinates between its current row
and the bounding box bottom, between the left and right bounds, inside the
grid and inside the selection, in the target table. -/
theorem pasteSelRows_frame (shape : Nat × Nat × Nat) (sel : Selection)
    (table top left bottom right : Nat) (data : List (List String)) :
    ∀ (fuel row : Nat) (st : Coord → Option String) (q : Coord),
      ¬(q.2.2 = table ∧ row + top ≤ q.1 ∧ q.1 ≤ bottom ∧ left ≤ q.2.1
          ∧ q.2.1 ≤ right ∧ gridContains shape q = true
          ∧ sel.contains (q.1, q.2.1) = true) →
      pasteSelRows shape sel table top left bottom right data fuel row st q = st q := by
  intro fuel
  induction fuel with
  | zero =>
      intro row st q hq
      simp [pasteSelRows]
  | succ fuel ih =>
      intro row st q hq
      simp only [pasteSelRows]
      by_cases hdata : data.isEmpty = true
      · rw [if_pos hdata]
      · rw [if_neg hdata]
        by_cases hstop : (decide (bottom < row + top)
            || !gridContains shape (row + top, 0, table)) = true
        · rw [if_pos hstop]
        · rw [if_neg hstop]
          have hstop' := hstop
          simp only [Bool.or_eq_true, decide_eq_true_eq, Bool.not_eq_true',
            not_or] at hstop'
          have hbot : row + top ≤ bottom := Nat.not_lt.mp hstop'.1
          rw [ih (row + 1) _ q ?_]
          · rw [pasteSelCols_frame shape sel table (row + top) left right
                (right + 1) 0 _ st q ?_]
            rintro ⟨h1, h2, h3, h4, h5, h6⟩
            exact hq ⟨h1, Nat.le_of_eq h2.symm, h2 ▸ hbot, by omega, h4, h5, h6⟩
          · rintro ⟨h1, h2, h3, h4, h5, h6, h7⟩
            exact hq ⟨h1, by omega, h3, h4, h5, h6, h7⟩

/-- Value written by the inner selection-paste loop: when the loop reaches
column counter c within the right and grid bounds and the cell is in the
selection, the cell receives the source value at index c modulo the line
length (the cycled value). -/
theorem pasteSelCols_val (shape : Nat × Nat × Nat) (sel : Selection)
    (table row left right : Nat) (line : List String)
    (hrow : row < shape.1) (htab : table < shape.2.2) (hline : line ≠ []) :
    ∀ (fuel col c : Nat) (st : Coord → Option String),
      col ≤ c → c - col < fuel → c + left ≤ right → c + left < shape.2.1 →
      sel.contains (row, c + left) = true →
      pasteSelCols shape sel table row left right fuel col line st (row, c + left, table)
        = some (line.getD (c % line.length) "") := by
  intro fuel
  induction fuel with
  | zero =>
      intro col c st hcol hfuel hcr hcC hsel
      omega
  | succ fuel ih =>
      intro col c st hcol hfuel hcr hcC hsel
      simp only [pasteSelCols]
      have hlineB : ¬ line.isEmpty = true := by
        simp only [List.isEmpty_eq_true]
        exact hline
      rw [if_neg hlineB]
      have hg : (gridContains shape (row, col + left, table)
          && decide (col + left ≤ right)) = true := by
        simp only [gridContains, Bool.and_eq_true, decide_eq_true_eq]
        omega
      rw [if_pos hg]
      by_cases hceq : col = c
      · subst hceq
        rw [pasteSelCols_frame shape sel table row left right fuel (col + 1) line _
              (row, col + left, table) ?_]
        · rw [if_pos hsel]
          simp [writeCell]
        · rintro ⟨-, -, h3, -, -, -⟩
          dsimp only at h3
          omega
      · exact ih (col + 1) c _ (by omega) (by omega) hcr hcC hsel

/-- Value written by the outer selection-paste loop: when the loop reaches
row counter r within the bottom and grid bounds and the cell is in the
selection and within the column bounds, the cell receives the source value
of the cycled source row, cycled across columns. -/
theorem pasteSelRows_val (shape : Nat × Nat × Nat) (sel : Selection)
    (table top left bottom right : Nat) (data : List (List String))
    (htab : table < shape.2.2) (hC : 0 < shape.2.1) (hdata : data ≠ []) :
    ∀ (fuel row r c : Nat) (st : Coord → Option String),
      row ≤ r → r - row < fuel → r + top ≤ bottom → r + top < shape.1 →
      data.getD (r % data.length) [] ≠ [] →
      c + left ≤ right → c + left < shape.2.1 →
      sel.contains (r + top, c + left) = true →
      pasteSelRows shape sel table top left bottom right data fuel row st
          (r + top, c + left, table)
        = some ((data.getD (r % data.length) []).getD
            (c % (data.getD (r % data.length) []).length) "") := by
  intro fuel
  induction fuel with
  | zero =>
      intro row r c st hrow hfuel
      omega
  | succ fuel ih =>
      intro row r c st hrow hfuel hbot hR hline hcr hcC hsel
      simp only [pasteSelRows]
      have hdataB : ¬ data.isEmpty = true := by
        simp only [List.isEmpty_eq_true]
        exact hdata
      rw [if_neg hdataB]
      have hgrid : gridContains shape (row + top, 0, table) = true := by
        simp only [gridContains, Bool.and_eq_true, decide_eq_true_eq]
        omega
      have hstop : ¬ (decide (bottom < row + top)
          || !gridContains shape (row + top, 0, table)) = true := by
        simp only [Bool.or_eq_true, decide_eq_true_eq, Bool.not_eq_true', hgrid,
          not_or]
        exact ⟨by omega, by simp⟩
      rw [if_neg hstop]
      by_cases hreq : row = r
      · subst hreq
        rw [pasteSelRows_frame shape sel table top left bottom right data fuel
              (row + 1) _ (row + top, c + left, table) ?_]
        · exact pasteSelCols_val shape sel table (row + top) left right _
            hR htab hline (right + 1) 0 c _ (Nat.zero_le c) (by omega) hcr hcC hsel
        · rintro ⟨-, h2, -, -, -, -, -⟩
          dsimp only at h2
          omega
      · exact ih (row + 1) r c _ (by omega) (by omega) hbot hR hline hcr hcC hsel

/-- Cells outside the written range of the inner current-paste loop are
left unchanged: the loop writes only at coordinates of its row, at columns
from its current counter up to one per remaining source cell. -/
theorem pasteCurCols_frame (shape : Nat × Nat × Nat) (table row left : Nat) :
    ∀ (line : List String) (col : Nat) (st : Coord → Option String)
      (qr qc qt : Nat),
      ¬(qt = table ∧ qr = row ∧ col + left ≤ qc ∧ qc < col + left + line.length) →
      pasteCurCols shape table row left col line st (qr, qc, qt) = st (qr, qc, qt) := by
  intro line
  induction line with
  | nil =>
      intro col st qr qc qt hq
      simp [pasteCurCols]
  | cons v rest ih =>
      intro col st qr qc qt hq
      simp only [pasteCurCols]
      by_cases hg : gridContains shape (row, col + left, table) = true
      · rw [if_pos hg]
        rw [ih (col + 1) _ qr qc qt ?_]
        · simp only [writeCell]
          rw [if_neg ?_]
          intro he
          simp only [Prod.mk.injEq] at he
          obtain ⟨h1, h2, h3⟩ := he
          refine hq ⟨h3, h1, by omega, by simp only [List.length_cons]; omega⟩
        · rintro ⟨ha, hb, hc, hd⟩
          exact hq ⟨ha, hb, by omega, by simp only [List.length_cons]; omega⟩
      · rw [if_neg hg]

/-- Value written by the inner current-paste loop: source cell c of the
line is written exactly once, at column offset c from the loop's starting
column, with no cycling. -/
theorem pasteCurCols_val (shape : Nat × Nat × Nat) (table row left : Nat)
    (hrow : row < shape.1) (htab : table < shape.2.2) :
    ∀ (line : List String) (col c : Nat) (st : Coord → Option String),
      c < line.length → col + c + left < shape.2.1 →
      pasteCurCols shape table row left col line st (row, col + c + left, table)
        = some (line.getD c "") := by
  intro line
  induction line with
  | nil =>
      intro col c st hc
      simp at hc
  | cons v rest ih =>
      intro col c st hc hC
      simp only [pasteCurCols]
      have hg : gridContains shape (row, col + left, table) = true := by
        simp only [gridContains, Bool.and_eq_true, decide_eq_true_eq]
        omega
      rw [if_pos hg]
      cases c with
      | zero =>
          rw [pasteCurCols_frame shape table row left rest (col + 1) _
                row (col + 0 + left) table ?_]
          · simp only [writeCell]
            have he : col + 0 + left = col + left := by omega
            rw [he, if_pos rfl]
            rfl
          · rintro ⟨-, -, h3, -⟩
            omega
      | succ e =>
          have hcol : col + (e + 1) + left = col + 1 + e + left := by omega
          rw [hcol]
          rw [ih (col + 1) e _ (by simp only [List.length_cons] at hc; omega)
                (by omega)]
          rfl

/-- Cells outside the written range of the outer current-paste loop are
left unchanged: the loop writes only in the target table, at rows from its
current counter up to one per remaining source line, at columns within
that source line's width. -/
theorem pasteCurRows_frame (shape : Nat × Nat × Nat) (table top left : Nat) :
    ∀ (lines : List (List String)) (row : Nat) (st : Coord → Option String)
      (qr qc qt : Nat),
      ¬(qt = table ∧ row + top ≤ qr ∧ qr < row + top + lines.length ∧ left ≤ qc
          ∧ qc < left + (lines.getD (qr - (row + top)) []).length) →
      pasteCurRows shape table top left row lines st (qr, qc, qt) = st (qr, qc, qt) := by
  intro lines
  induction lines with
  | nil =>
      intro row st qr qc qt hq
      simp [pasteCurRows]
  | cons line rest ih =>
      intro row st qr qc qt hq
      simp only [pasteCurRows]
      by_cases hg : gridContains shape (row + top, 0, table) = true
      · rw [if_pos hg]
        rw [ih (row + 1) _ qr qc qt ?_]
        · rw [pasteCurCols_frame shape table (row + top) left line 0 st qr qc qt ?_]
          rintro ⟨h1, h2, h3, h4⟩
          refine hq ⟨h1, by omega, by simp only [List.length_cons]; omega,
            by omega, ?_⟩
          have h0 : qr - (row + top) = 0 := by omega
          rw [h0]
          have hgd : (line :: rest).getD 0 ([] : List String) = line := rfl
          rw [hgd]
          omega
        · rintro ⟨h1, h2, h3, h4, h5⟩
          refine hq ⟨h1, by omega, by simp only [List.length_cons]; omega, h4, ?_⟩
          have hd : qr - (row + top) = (qr - (row + 1 + top)) + 1 := by omega
          rw [hd, List.getD_cons_succ]
          exact h5
      · rw [if_neg hg]

/-- Value written by the outer current-paste loop: source line r, cell c is
written exactly once, at row offset r and column offset c from the paste
anchor, with no cycling. -/
theorem pasteCurRows_val (shape : Nat × Nat × Nat) (table top left : Nat)
    (htab : table < shape.2.2) (hC : 0 < shape.2.1) :
    ∀ (lines : List (List String)) (row r c : Nat) (st : Coord → Option String),
      r < lines.length → row + r + top < shape.1 →
      c < (lines.getD r []).length → c + left < shape.2.1 →
      pasteCurRows shape table top left row lines st (row + r + top, c + left, table)
        = some ((lines.getD r []).getD c "") := by
  intro lines
  induction lines with
  | nil =>
      intro row r c st hr
      simp at hr
  | cons line rest ih =>
      intro row r c st hr hR hc hcC
      simp only [pasteCurRows]
      have hg : gridContains shape (row + top, 0, table) = true := by
        simp only [gridContains, Bool.and_eq_true, decide_eq_true_eq]
        omega
      rw [if_pos hg]
      cases r with
      | zero =>
          rw [pasteCurRows_frame shape table top left rest (row + 1) _
                (row + 0 + top) (c + left) table ?_]
          · have he : row + 0 + top = row + top := by omega
            rw [he]
            have he2 : c + left = 0 + c + left := by omega
            rw [he2]
            rw [pasteCurCols_val shape table (row + top) left (by omega) htab
                  line 0 c st (by exact hc) (by omega)]
            rfl
          · rintro ⟨-, h2, -, -, -⟩
            omega
      | succ e =>
          have hrow : row + (e + 1) + top = row + 1 + e + top := by omega
          rw [hrow]
          rw [ih (row + 1) e c _ (by simp only [List.length_cons] at hr; omega)
                (by omega) (by exact hc) hcC]
          rfl

/-- C7: Paste wrap asymmetry: pasting into a selection whose bounding box
is larger than the pasted data cycles (wraps) the source rows and the
cells within each row to fill the selection (the value at box offset
(r, c) is source cell (r mod rows, c mod row-width)), whereas
paste-to-current writes each source row and cell exactly once starting at
the current cell and never wraps (at offset (r, c) the cell receives
source cell (r, c) when it exists and is otherwise left unchanged). -/
theorem paste_wrap_asymmetry
    (R C T table top left bottom right r c : Nat)
    (data : List (List String)) (st : Coord → Option String)
    (htab : table < T) (htb : top ≤ bottom) (hlr : left ≤ right)
    (hbR : bottom < R) (hrC : right < C)
    (hr : r + top ≤ bottom) (hc : c + left ≤ right)
    (hdata : data ≠ []) (hlines : ∀ l ∈ data, l ≠ [])
    (hfitR : top + data.length ≤ R)
    (hfitC : ∀ l ∈ data, left + l.length ≤ C) :
    paste_to_selection (R, C, T) ⟨[(top, left)], [(bottom, right)], [], [], []⟩
        table data st (r + top, c + left, table)
      = some ((data.getD (r % data.length) []).getD
          (c % (data.getD (r % data.length) []).length) "")
  ∧ paste_to_current (R, C, T) table top left data st (r + top, c + left, table)
      = if r < data.length ∧ c < (data.getD r []).length
        then some ((data.getD r []).getD c "")
        else st (r + top, c + left, table) := by
  have hlen : 0 < data.length := List.length_pos.mpr hdata
  have hmem : data.getD (r % data.length) [] ∈ data := by
    have hmod : r % data.length < data.length := Nat.mod_lt _ hlen
    rw [List.getD_eq_getElem data [] hmod]
    exact List.getElem_mem hmod
  have hline : data.getD (r % data.length) [] ≠ [] := hlines _ hmem
  constructor
  · have hbb : Selection.get_grid_bbox
        ⟨[(top, left)], [(bottom, right)], [], [], []⟩ (R, C, T)
        = some ((top, left), (bottom, right)) := by
      simp only [Selection.get_grid_bbox, List.cons_append, List.nil_append,
        List.append_nil, List.foldl_cons, List.foldl_nil]
      have e1 : min top bottom = top := by omega
      have e2 : min left right = left := by omega
      have e3 : min (max top bottom) (R - 1) = bottom := by omega
      have e4 : min (max left right) (C - 1) = right := by omega
      rw [e1, e2, e3, e4]
    simp only [paste_to_selection, hbb]
    have hsel : Selection.contains
        ⟨[(top, left)], [(bottom, right)], [], [], []⟩ (r + top, c + left) = true := by
      simp [Selection.contains]
      omega
    exact pasteSelRows_val (R, C, T) _ table top left bottom right data htab
      (by show 0 < C; omega) hdata (bottom + 1) 0 r c st (Nat.zero_le r)
      (by omega) hr (by show r + top < R; omega) hline hc
      (by show c + left < C; omega) hsel
  · by_cases hcase : r < data.length ∧ c < (data.getD r []).length
    · rw [if_pos hcase]
      obtain ⟨hr', hc'⟩ := hcase
      have hmem' : data.getD r [] ∈ data := by
        rw [List.getD_eq_getElem data [] hr']
        exact List.getElem_mem hr'
      have hfit' : left + (data.getD r []).length ≤ C := hfitC _ hmem'
      simp only [paste_to_current]
      have he : r + top = 0 + r + top := by omega
      rw [he]
      exact pasteCurRows_val (R, C, T) table top left htab
        (by show 0 < C; omega) data 0 r c st hr'
        (by show 0 + r + top < R; omega) hc' (by show c + left < C; omega)
    · rw [if_neg hcase]
      simp only [paste_to_current]
      apply pasteCurRows_frame
      rintro ⟨h1, h2, h3, h4, h5⟩
      have hidx : r + top - (0 + top) = r := by omega
      rw [hidx] at h5
      exact hcase ⟨by omega, by omega⟩

/-- Witness for C7 at a concrete input: a 2x2 source pasted into the
4x4 box (0,0)-(3,3); at box offset (2,3) paste-to-selection wraps to
source cell (0,1) = "b", while paste-to-current leaves the cell
unchanged (empty). -/
theorem paste_wrap_asymmetry_witness :
    paste_to_selection (5, 5, 1) ⟨[(0, 0)], [(3, 3)], [], [], []⟩ 0
        [["a", "b"], ["c", "d"]] stNone (2 + 0, 3 + 0, 0) = some "b"
  ∧ paste_to_current (5, 5, 1) 0 0 0 [["a", "b"], ["c", "d"]] stNone
        (2 + 0, 3 + 0, 0) = none := by
  have h := paste_wrap_asymmetry 5 5 1 0 0 0 3 3 2 3 [["a", "b"], ["c", "d"]]
    stNone (by decide) (by decide) (by decide) (by decide) (by decide)
    (by decide) (by decide) (by decide) (by decide) (by decide) (by decide)
  exact ⟨h.1, h.2⟩

/-- C10: Paste-to-selection frame property: _paste_to_selection writes only
to cells that are members of the selection, lie within the selection's
grid-clipped bounding box, exist in the Cell Store's grid shape, and are
in the pasted table; every other cell keeps its previous code. -/
theorem paste_selection_frame (shape : Nat × Nat × Nat) (sel : Selection)
    (table : Nat) (data : List (List String)) (st : Coord → Option String)
    (top left bottom right qr qc qt : Nat)
    (hbb : sel.get_grid_bbox shape = some ((top, left), (bottom, right)))
    (hq : ¬(sel.contains (qr, qc) = true ∧ top ≤ qr ∧ qr ≤ bottom
        ∧ left ≤ qc ∧ qc ≤ right ∧ gridContains shape (qr, qc, qt) = true
        ∧ qt = table)) :
    paste_to_selection shape sel table data st (qr, qc, qt) = st (qr, qc, qt) := by
  simp only [paste_to_selection, hbb]
  apply pasteSelRows_frame
  rintro ⟨h1, h2, h3, h4, h5, h6, h7⟩
  dsimp only at h1 h2 h3 h4 h5 h7
  exact hq ⟨h7, by omega, h3, h4, h5, h6, h1⟩

/-- Witness for C10 at a concrete input: with selection block (1,1)-(2,2)
on a 5x5 grid, pasting does not touch the outside cell (0,0). -/
theorem paste_selection_frame_witness :
    Selection.get_grid_bbox sel10 (5, 5, 1) = some ((1, 1), (2, 2))
  ∧ paste_to_selection (5, 5, 1) sel10 0 [["x"]] stNone (0, 0, 0) = none :=
  ⟨by decide,
   paste_selection_frame (5, 5, 1) sel10 0 [["x"]] stNone 1 1 2 2 0 0 0
     (by decide) (by decide)⟩

/-- C9: Re-entrancy guard for resize replay: the row-resize handler pushes
no command whenever undo_resizing_row is set; a row-height command's apply
and invert are no-ops when the view's current height already equals the
target height; and apply/invert never enqueue a command onto the Command
History, because the guard is set while the view resize event fires. -/
theorem resize_reentrancy_guard (f : Nat) (st stR stU stH : RHState)
    (row old_height new_height : Nat) (c : RHCmd)
    (hguard : st.undo_resizing_row = true)
    (hre : stR.viewHeights c.row = c.new_height)
    (hun : stU.viewHeights c.row = c.old_height) :
    on_row_resizedF f st row old_height new_height = st
  ∧ rowHeightRedoF f c stR = stR
  ∧ rowHeightUndoF f c stU = stU
  ∧ (rowHeightRedoF f c stH).history = stH.history
  ∧ (rowHeightUndoF f c stH).history = stH.history := by
  refine ⟨on_row_resized_guarded f st row old_height new_height hguard, ?_, ?_,
    rowHeightRedoF_history f c stH, rowHeightUndoF_history f c stH⟩
  · simp only [rowHeightRedoF]
    rw [if_pos hre]
  · simp only [rowHeightUndoF]
    rw [if_pos hun]

/-- Witness for C9 at concrete inputs: a guarded state is untouched by the
resize handler, a command whose target height is already shown is a no-op
in both directions, and apply/invert leave the history unchanged. -/
theorem resize_reentrancy_guard_witness :
    rhGuardSt.undo_resizing_row = true
  ∧ rhViewNewSt.viewHeights rhCmdEx.row = rhCmdEx.new_height
  ∧ rhViewOldSt.viewHeights rhCmdEx.row = rhCmdEx.old_height
  ∧ (on_row_resizedF 1 rhGuardSt 0 10 20 = rhGuardSt
     ∧ rowHeightRedoF 1 rhCmdEx rhViewNewSt = rhViewNewSt
     ∧ rowHeightUndoF 1 rhCmdEx rhViewOldSt = rhViewOldSt
     ∧ (rowHeightRedoF 1 rhCmdEx rhGuardSt).history = rhGuardSt.history
     ∧ (rowHeightUndoF 1 rhCmdEx rhGuardSt).history = rhGuardSt.history) :=
  ⟨rfl, rfl, rfl,
   resize_reentrancy_guard 1 rhGuardSt rhViewNewSt rhViewOldSt rhGuardSt
     0 10 20 rhCmdEx rfl rfl rfl⟩

end Pyspread
